import Mathlib

/-!
Shallow embedding of the MCP-aggregator RAG query pipeline
(`rag_system/core/advanced_rag_v2.py`, `rag_system/utils/cache.py`,
`rag_system/rag_system/core/mcp_direct.py`) and proofs about the
frozen claims on it.

Modelling conventions:
* Python strings are Lean `String`s (both are sequences of Unicode
  code points; Python slices/`len` agree with `String.take`/`length`).
* Python floats are modelled as `ℚ`; `math.exp` and the Anthropic /
  cross-encoder models are opaque function parameters.
* Python wall-clock times (`time.time()`) are explicit `ℚ` arguments.
* `hash(...)` and `hashlib.sha256` are opaque function parameters:
  every theorem quantifies over them.
* Subprocess and LLM calls are modelled by explicit outcome values.
-/

namespace RagV2

/-! ### Python character classes (`str.strip`, `str.lower`, `re` classes) -/

/-- Python whitespace as used by `str.strip()` and the regex class `\s`. -/
def pyIsSpace (c : Char) : Bool :=
  c = ' ' || c = '\t' || c = '\n' || c = '\r' || c = '\x0b' || c = '\x0c'

/-- Word characters of the regex class `\w` (ASCII alphanumerics, underscore;
non-ASCII code points are treated as word characters, matching Python's
Unicode-aware `\w` on letters). -/
def pyIsWord (c : Char) : Bool :=
  c.isAlphanum || c = '_' || decide (c.toNat ≥ 128)

/-- The ASCII case table of `str.lower()`. -/
def lowerPairs : List (Char × Char) :=
  [('A','a'), ('B','b'), ('C','c'), ('D','d'), ('E','e'), ('F','f'),
   ('G','g'), ('H','h'), ('I','i'), ('J','j'), ('K','k'), ('L','l'),
   ('M','m'), ('N','n'), ('O','o'), ('P','p'), ('Q','q'), ('R','r'),
   ('S','s'), ('T','t'), ('U','u'), ('V','v'), ('W','w'), ('X','x'),
   ('Y','y'), ('Z','z')]

/-- `str.lower()` on one character (ASCII table; other characters kept). -/
def pyLower (c : Char) : Char :=
  (((lowerPairs.find? (fun p => p.1 = c)).map (fun p => p.2)).getD c)

/-- `str.lower()` on a string. -/
def pyLowerStr (s : String) : String := ⟨s.data.map pyLower⟩

/-- `str.strip()` on a character list: drop leading and trailing whitespace. -/
def stripL (l : List Char) : List Char :=
  (((l.dropWhile pyIsSpace).reverse.dropWhile pyIsSpace)).reverse

/-- `str.strip()`. -/
def pyStrip (s : String) : String := ⟨stripL s.data⟩

/-- `re.sub(r'\s+', ' ', ·)`: replace each maximal whitespace run by a single
space.  The flag records whether we are inside a run already replaced. -/
def collapseGo : Bool → List Char → List Char
  | _, [] => []
  | inRun, c :: rest =>
    if pyIsSpace c then
      if inRun then collapseGo true rest
      else ' ' :: collapseGo true rest
    else c :: collapseGo false rest

/-- `re.sub(r'\s+', ' ', ·)` on a character list. -/
def collapseL (l : List Char) : List Char := collapseGo false l

/-- `re.sub(r'[^\w\s]', '', ·)`: drop characters that are neither word
characters nor whitespace. -/
def removePunctL (l : List Char) : List Char :=
  l.filter (fun c => pyIsWord c || pyIsSpace c)

/-- The cache-key query normalization of `_build_cache_key`
(`advanced_rag_v2.py:149-153`): `query.strip().lower()`, then
`re.sub(r'[^\w\s]', '', ·)`, then `re.sub(r'\s+', ' ', ·)`. -/
def normalizeL (l : List Char) : List Char :=
  collapseL (removePunctL ((stripL l).map pyLower))

/-- String-level cache-key query normalization. -/
def normalize_query (q : String) : String := ⟨normalizeL q.data⟩

/-! ### Lemmas about the normalization -/

theorem pyLower_idem (c : Char) : pyLower (pyLower c) = pyLower c := by
  unfold pyLower
  cases h : lowerPairs.find? (fun p => p.1 = c) with
  | none => simp [h]
  | some p =>
    have hmem : p ∈ lowerPairs := List.mem_of_find?_eq_some h
    have hall : ∀ q ∈ lowerPairs, ∀ x ∈ lowerPairs, ¬ (x.1 = q.2) := by decide
    have hnone : lowerPairs.find? (fun x => x.1 = p.2) = none := by
      apply List.find?_eq_none.2
      intro x hx
      simpa using hall p hmem x hx
    simp [hnone]

theorem pyLower_mem_map (c : Char) (l : List Char) (h : c ∈ l.map pyLower) :
    pyLower c = c := by
  rcases List.mem_map.1 h with ⟨c0, _, rfl⟩
  exact pyLower_idem c0

/-- Every character emitted by `collapseGo` is either the space written for a
whitespace run or a non-whitespace character of the input. -/
theorem collapseGo_chars (b : Bool) (l : List Char) :
    ∀ c ∈ collapseGo b l, c = ' ' ∨ (c ∈ l ∧ pyIsSpace c = false) := by
  induction l generalizing b with
  | nil => intro c hc; simp [collapseGo] at hc
  | cons a rest ih =>
    intro c hc
    by_cases ha : pyIsSpace a
    · cases b with
      | true =>
        rw [show collapseGo true (a :: rest) = collapseGo true rest by
          simp [collapseGo, ha]] at hc
        rcases ih true c hc with h | ⟨h1, h2⟩
        · exact Or.inl h
        · exact Or.inr ⟨List.mem_cons_of_mem _ h1, h2⟩
      | false =>
        rw [show collapseGo false (a :: rest) = ' ' :: collapseGo true rest by
          simp [collapseGo, ha]] at hc
        rcases List.mem_cons.1 hc with rfl | hc2
        · exact Or.inl rfl
        · rcases ih true c hc2 with h | ⟨h1, h2⟩
          · exact Or.inl h
          · exact Or.inr ⟨List.mem_cons_of_mem _ h1, h2⟩
    · rw [show collapseGo b (a :: rest) = a :: collapseGo false rest by
        cases b <;> simp [collapseGo, ha]] at hc
      rcases List.mem_cons.1 hc with rfl | hc2
      · exact Or.inr ⟨List.mem_cons_self _ _, by simpa using ha⟩
      · rcases ih false c hc2 with h | ⟨h1, h2⟩
        · exact Or.inl h
        · exact Or.inr ⟨List.mem_cons_of_mem _ h1, h2⟩

/-- No two adjacent whitespace characters. -/
def noAdj : List Char → Bool
  | a :: b :: rest => (!(pyIsSpace a && pyIsSpace b)) && noAdj (b :: rest)
  | _ => true

theorem noAdj_cons_of (a : Char) (l : List Char) (h : noAdj (a :: l) = true) :
    noAdj l = true := by
  cases l with
  | nil => rfl
  | cons b r =>
    have h' : ((!(pyIsSpace a && pyIsSpace b)) && noAdj (b :: r)) = true := h
    rw [Bool.and_eq_true] at h'
    exact h'.2

theorem noAdj_cons_head (a b : Char) (l : List Char)
    (h : noAdj (a :: b :: l) = true) : (pyIsSpace a && pyIsSpace b) = false := by
  have h' : ((!(pyIsSpace a && pyIsSpace b)) && noAdj (b :: l)) = true := h
  rw [Bool.and_eq_true, Bool.not_eq_true'] at h'
  exact h'.1

/-- The first character produced by `collapseGo true l` is never whitespace. -/
theorem collapseGo_true_head (l : List Char) (c : Char)
    (h : (collapseGo true l).head? = some c) : pyIsSpace c = false := by
  induction l with
  | nil => simp [collapseGo] at h
  | cons a rest ih =>
    by_cases ha : pyIsSpace a
    · rw [show collapseGo true (a :: rest) = collapseGo true rest by
        simp [collapseGo, ha]] at h
      exact ih h
    · rw [show collapseGo true (a :: rest) = a :: collapseGo false rest by
        simp [collapseGo, ha]] at h
      simp only [List.head?_cons, Option.some.injEq] at h
      subst h
      simpa using ha

theorem noAdj_head_cons (a : Char) (l : List Char) (hl : noAdj l = true)
    (hhead : ∀ c, l.head? = some c → (pyIsSpace a && pyIsSpace c) = false) :
    noAdj (a :: l) = true := by
  cases l with
  | nil => rfl
  | cons b r =>
    show ((!(pyIsSpace a && pyIsSpace b)) && noAdj (b :: r)) = true
    rw [Bool.and_eq_true]
    refine ⟨?_, hl⟩
    rw [Bool.not_eq_true']
    exact hhead b rfl

/-- The output of `collapseGo` never contains two adjacent whitespace
characters. -/
theorem collapseGo_noAdj (b : Bool) (l : List Char) :
    noAdj (collapseGo b l) = true := by
  induction l generalizing b with
  | nil => simp [collapseGo, noAdj]
  | cons a rest ih =>
    by_cases ha : pyIsSpace a
    · cases b with
      | true =>
        rw [show collapseGo true (a :: rest) = collapseGo true rest by
          simp [collapseGo, ha]]
        exact ih true
      | false =>
        rw [show collapseGo false (a :: rest) = ' ' :: collapseGo true rest by
          simp [collapseGo, ha]]
        refine noAdj_head_cons _ _ (ih true) ?_
        intro c hc
        rw [collapseGo_true_head rest c hc]
        simp
    · rw [show collapseGo b (a :: rest) = a :: collapseGo false rest by
        cases b <;> simp [collapseGo, ha]]
      refine noAdj_head_cons _ _ (ih false) ?_
      intro c _
      simp [ha]

/-- `collapseGo false` fixes lists whose whitespace is single spaces. -/
theorem collapseGo_fix (l : List Char)
    (hsp : ∀ c ∈ l, pyIsSpace c = true → c = ' ')
    (hadj : noAdj l = true) : collapseGo false l = l := by
  induction l with
  | nil => rfl
  | cons a rest ih =>
    by_cases ha : pyIsSpace a
    · have ha' : a = ' ' := hsp a (List.mem_cons_self _ _) (by simpa using ha)
      rw [show collapseGo false (a :: rest) = ' ' :: collapseGo true rest by
        simp [collapseGo, ha]]
      have hrest : collapseGo false rest = rest :=
        ih (fun c hc => hsp c (List.mem_cons_of_mem _ hc)) (noAdj_cons_of _ _ hadj)
      have htrue : collapseGo true rest = rest := by
        cases rest with
        | nil => rfl
        | cons d r =>
          have hd : pyIsSpace d = false := by
            have := noAdj_cons_head a d r hadj
            simp only [Bool.and_eq_false_iff] at this
            rcases this with h | h
            · exact absurd h (by simpa using ha)
            · exact h
          rw [show collapseGo true (d :: r) = d :: collapseGo false r by
            simp [collapseGo, hd]]
          rw [show collapseGo false (d :: r) = d :: collapseGo false r by
            simp [collapseGo, hd]] at hrest
          exact hrest
      rw [htrue, ha']
    · rw [show collapseGo false (a :: rest) = a :: collapseGo false rest by
        simp [collapseGo, ha]]
      rw [ih (fun c hc => hsp c (List.mem_cons_of_mem _ hc)) (noAdj_cons_of _ _ hadj)]

/-- `noAdj` restricted to the right part of an append. -/
theorem noAdj_append_right (u v : List Char) (h : noAdj (u ++ v) = true) :
    noAdj v = true := by
  induction u with
  | nil => simpa using h
  | cons a u' ih => exact ih (noAdj_cons_of a _ (by simpa using h))

/-- `noAdj` restricted to the left part of an append. -/
theorem noAdj_append_left (u v : List Char) (h : noAdj (u ++ v) = true) :
    noAdj u = true := by
  induction u with
  | nil => rfl
  | cons a u' ih =>
    have h' : noAdj (u' ++ v) = true := noAdj_cons_of a _ (by simpa using h)
    refine noAdj_head_cons _ _ (ih h') ?_
    intro c hc
    cases u' with
    | nil => simp at hc
    | cons d r =>
      simp only [List.head?_cons, Option.some.injEq] at hc
      exact hc ▸ noAdj_cons_head a d (r ++ v) (by simpa using h)

theorem noAdj_dropWhile (p : Char → Bool) (l : List Char)
    (h : noAdj l = true) : noAdj (l.dropWhile p) = true := by
  have := List.takeWhile_append_dropWhile (p := p) (l := l)
  exact noAdj_append_right (l.takeWhile p) (l.dropWhile p) (by rw [this]; exact h)

theorem noAdj_stripL (l : List Char) (h : noAdj l = true) :
    noAdj (stripL l) = true := by
  unfold stripL
  set y := l.dropWhile pyIsSpace with hy
  have hyAdj : noAdj y = true := noAdj_dropWhile _ _ h
  have hdecomp : y = (y.reverse.dropWhile pyIsSpace).reverse ++
      (y.reverse.takeWhile pyIsSpace).reverse := by
    conv_lhs => rw [← List.reverse_reverse y]
    rw [← List.reverse_append, List.takeWhile_append_dropWhile]
  exact noAdj_append_left _ _ (by rw [← hdecomp]; exact hyAdj)

theorem mem_stripL (c : Char) (l : List Char) (h : c ∈ stripL l) : c ∈ l := by
  unfold stripL at h
  rw [List.mem_reverse] at h
  have h1 := (List.dropWhile_sublist pyIsSpace).subset h
  rw [List.mem_reverse] at h1
  exact (List.dropWhile_sublist pyIsSpace).subset h1

/-- Characters of the normalized query: word characters or single spaces,
already lowercase. -/
theorem normalizeL_chars (l : List Char) (c : Char) (h : c ∈ normalizeL l) :
    (pyIsWord c || pyIsSpace c) = true ∧ pyLower c = c ∧
      (pyIsSpace c = true → c = ' ') := by
  unfold normalizeL collapseL at h
  rcases collapseGo_chars false _ c h with rfl | ⟨h1, h2⟩
  · refine ⟨by simp [pyIsSpace], by decide, fun _ => rfl⟩
  · unfold removePunctL at h1
    have hkeep := List.of_mem_filter h1
    have hmem := List.mem_of_mem_filter h1
    exact ⟨hkeep, pyLower_mem_map c _ hmem, fun hsp => by simp [hsp] at h2⟩

theorem normalizeL_noAdj (l : List Char) : noAdj (normalizeL l) = true :=
  collapseGo_noAdj false _

/-- Applying the cache-key normalization twice is the same as stripping an
already-normalized query: the only non-idempotent step is that removing
punctuation can expose fresh leading/trailing whitespace. -/
theorem normalizeL_normalizeL (l : List Char) :
    normalizeL (normalizeL l) = stripL (normalizeL l) := by
  set m := normalizeL l with hm
  have hchars := normalizeL_chars l
  have hmap : (stripL m).map pyLower = stripL m := by
    have := List.map_congr_left
      (fun c hc => (hchars c (mem_stripL c m hc)).2.1)
    rw [this]
    simp
  have hfilter : removePunctL (stripL m) = stripL m := by
    apply List.filter_eq_self.2
    intro c hc
    exact (hchars c (mem_stripL c m hc)).1
  have hcollapse : collapseL (stripL m) = stripL m := by
    apply collapseGo_fix
    · intro c hc hsp
      exact (hchars c (mem_stripL c m hc)).2.2 hsp
    · exact noAdj_stripL m (normalizeL_noAdj l)
  show collapseL (removePunctL ((stripL m).map pyLower)) = stripL m
  rw [hmap, hfilter, hcollapse]

/-- Python slice `s[:n]` (by code points). -/
def pyTake (s : String) (n : Nat) : String := ⟨s.data.take n⟩

/-! ### Literal search and replace (Python `str.replace`) -/

/-- Match `lit` as a prefix, returning the rest. -/
def stripLit : List Char → List Char → Option (List Char)
  | [], l => some l
  | _ :: _, [] => none
  | a :: lit, b :: l => if a = b then stripLit lit l else none

/-- Fuelled scan of `str.replace`: replace each leftmost non-overlapping
occurrence of `pat`.  Each step strictly shortens the list when `pat` is
non-empty, so any fuel of at least the list length gives the full scan
(`replaceGo_fuel_irrelevant`). -/
def replaceGo (pat rep : List Char) : Nat → List Char → List Char
  | 0, l => l
  | _ + 1, [] => []
  | fuel + 1, c :: rest =>
    match stripLit pat (c :: rest) with
    | some after => rep ++ replaceGo pat rep fuel after
    | none => c :: replaceGo pat rep fuel rest

/-- Python `s.replace(pat, rep)` (for non-empty `pat`). -/
def pyReplace (s pat rep : String) : String :=
  ⟨replaceGo pat.data rep.data s.data.length s.data⟩

theorem stripLit_length_all (lit l r : List Char) (h : stripLit lit l = some r) :
    r.length + lit.length = l.length := by
  induction lit generalizing l with
  | nil =>
    simp only [stripLit, Option.some.injEq] at h
    simp [← h]
  | cons a lit2 ih =>
    cases l with
    | nil => simp [stripLit] at h
    | cons b l2 =>
      by_cases hab : a = b
      · simp only [stripLit, hab, if_true, if_pos] at h
        have := ih l2 h
        simp only [List.length_cons]
        omega
      · simp [stripLit, hab] at h

/-- The fuel is immaterial once it covers the list length. -/
theorem replaceGo_fuel_irrelevant (pat rep : List Char) (hpat : pat ≠ [])
    (fuel : Nat) (l : List Char) (h : l.length ≤ fuel)
    (fuel2 : Nat) (h2 : l.length ≤ fuel2) :
    replaceGo pat rep fuel l = replaceGo pat rep fuel2 l := by
  induction fuel generalizing l fuel2 with
  | zero =>
    have : l = [] := List.length_eq_zero.1 (Nat.le_zero.1 h)
    subst this
    cases fuel2 <;> rfl
  | succ fuel ih =>
    cases l with
    | nil => cases fuel2 <;> rfl
    | cons c rest =>
      cases fuel2 with
      | zero => simp at h2
      | succ fuel2 =>
        simp only [List.length_cons] at h h2
        show (match stripLit pat (c :: rest) with
          | some after => rep ++ replaceGo pat rep fuel after
          | none => c :: replaceGo pat rep fuel rest) =
          (match stripLit pat (c :: rest) with
          | some after => rep ++ replaceGo pat rep fuel2 after
          | none => c :: replaceGo pat rep fuel2 rest)
        cases hm : stripLit pat (c :: rest) with
        | none =>
          show c :: replaceGo pat rep fuel rest = c :: replaceGo pat rep fuel2 rest
          rw [ih rest (by omega) fuel2 (by omega)]
        | some after =>
          have hlen := stripLit_length_all _ _ _ hm
          have hp : 1 ≤ pat.length := by
            cases pat with
            | nil => exact absurd rfl hpat
            | cons p ps => simp
          simp only [List.length_cons] at hlen
          show rep ++ replaceGo pat rep fuel after = rep ++ replaceGo pat rep fuel2 after
          rw [ih after (by omega) fuel2 (by omega)]

/-! ### Substring containment (Python `in` on strings) -/

/-- Does `needle` occur at the start of `hay`? -/
def startsWithL : List Char → List Char → Bool
  | _, [] => true
  | [], _ :: _ => false
  | a :: rest, b :: nrest => a = b && startsWithL rest nrest

/-- Does `needle` occur contiguously inside `hay` (Python `needle in hay`)? -/
def containsSub (needle : List Char) : List Char → Bool
  | [] => needle.isEmpty
  | c :: rest => startsWithL (c :: rest) needle || containsSub needle rest

/-- Python `sub in hay` on strings. -/
def strContains (hay sub : String) : Bool := containsSub sub.data hay.data

/-- Python `any(w in hay for w in words)`. -/
def containsAny (hay : String) (words : List String) : Bool :=
  words.any (fun w => strContains hay w)

/-! ### Query analysis (`advanced_rag_v2.py`)

`extract_concepts` / `expand_query` call the fast LLM; their outputs are
explicit inputs of the model.  `extract_temporal` and `classify_intent`
are pure and embedded directly. -/

/-- Result of `extract_temporal` (`advanced_rag_v2.py:271-288`). -/
structure Temporal where
  has_temporal : Bool
  days_back : Option ℤ := none
  keyword : Option String := none
deriving Repr, DecidableEq

/-- The keyword table of `extract_temporal`, in source order. -/
def temporal_keywords : List (String × ℤ) :=
  [("hoje", 0), ("ontem", 1), ("anteontem", 2),
   ("semana", 7), ("mês", 30), ("recente", 7),
   ("último", 3), ("nova", 3), ("atual", 1)]

/-- `extract_temporal` (`advanced_rag_v2.py:271-288`): first keyword of the
table found in the lowercased query wins. -/
def extract_temporal (query : String) : Temporal :=
  let query_lower := pyLowerStr query
  match temporal_keywords.find? (fun kv => strContains query_lower kv.1) with
  | some kv => { has_temporal := true, days_back := some kv.2, keyword := some kv.1 }
  | none => { has_temporal := false }

/-- `classify_intent` (`advanced_rag_v2.py:290-310`): keyword membership over
the lowercased query; first matching class in source order wins. -/
def classify_intent (query : String) : String :=
  let query_lower := pyLowerStr query
  if containsAny query_lower ["código", "função", "classe", "implementação", "bug", "erro"] then
    "code"
  else if containsAny query_lower ["configurar", "setup", "instalar", "config"] then
    "config"
  else if containsAny query_lower ["como", "porque", "explique", "entender", "funciona"] then
    "explain"
  else if containsAny query_lower ["status", "progresso", "fase", "andamento"] then
    "status"
  else
    "general"

/-- The analyzed query returned by `process_query`
(`advanced_rag_v2.py:191-224`).  `concepts` and `expansions` come from fast
LLM calls and are inputs of the model; `temporal` and `intent` are computed
by the pure extractors. -/
structure ProcessedQuery where
  original : String
  concepts : List String
  expansions : List String
  temporal : Temporal
  intent : String

/-- `process_query` with the two LLM-produced lists supplied as parameters
(the threading is immaterial: each sub-extractor is independent). -/
def process_query (concepts expansions : List String) (query : String) :
    ProcessedQuery :=
  { original := query
    concepts := concepts
    expansions := expansions
    temporal := extract_temporal query
    intent := classify_intent query }

/-! ### Strategy planner (`_decide_retrieval_strategy`, lines 922-974) -/

/-- The strategy dictionary built by `_decide_retrieval_strategy`. -/
structure Strategy where
  mode : String
  use_vector : Bool
  use_memory : Bool
  use_recent : Bool
  use_code : Bool
  use_keywords : Bool
  use_graph : Bool
  top_k : Nat
  vector_n_results : Nat
  memory_limit : Nat
  memory_concepts : Nat
  use_planning : Bool
deriving Repr, DecidableEq

/-- Objective-question markers (`advanced_rag_v2.py:927`). -/
def is_objective (q : String) : Bool :=
  containsAny (pyLowerStr q) ["onde", "qual arquivo", "linha", "parâmetro", "flag", "comando"]

/-- The generic-definition markers of the `mode='none'` rule (line 961). -/
def generic_terms : List String := ["o que é", "defina", "definição de"]

/-- The project-specific tokens of the `mode='none'` rule (line 962). -/
def project_tokens : List String := ["selector21", "botscalp", "mcp", "rag"]

/-- The planning triggers (line 971). -/
def planning_triggers : List String :=
  ["pipeline", "fluxo", "passos", "decompor", "entender", "descrever", "inteiro"]

/-- `_decide_retrieval_strategy` (`advanced_rag_v2.py:922-974`), with the
instance's `default_top_k` (`RAG_TOP_K`, default 40) as a parameter. -/
def decide_retrieval_strategy (default_top_k : Nat) (pq : ProcessedQuery) :
    Strategy :=
  let intent := pq.intent
  let q := pq.original
  let qlen := q.length
  let objective := is_objective q
  let s0 : Strategy :=
    { mode := "hybrid"
      use_vector := true
      use_memory := true
      use_recent := pq.temporal.has_temporal
      use_code := intent = "code"
      use_keywords := intent ≠ "code"
      use_graph := intent = "status" ∨ intent = "explain" ∨ intent = "general"
      top_k := 20
      vector_n_results := 10
      memory_limit := 20
      memory_concepts := 3
      use_planning := false }
  let s1 :=
    if intent = "code" then
      { s0 with use_code := true, top_k := 15, vector_n_results := 15, memory_limit := 10 }
    else if intent = "status" ∨ intent = "config" then
      { s0 with top_k := 15, vector_n_results := 8, memory_limit := 15 }
    else if intent = "explain" then
      { s0 with top_k := max default_top_k 50, vector_n_results := 15, memory_limit := 30 }
    else s0
  let s2 :=
    if objective then
      { s1 with top_k := min s1.top_k 12, vector_n_results := min s1.vector_n_results 8,
                use_keywords := true, use_graph := false }
    else if qlen > 120 then
      { s1 with top_k := max s1.top_k (max default_top_k 50),
                vector_n_results := max s1.vector_n_results 18 }
    else s1
  let s3 :=
    if intent = "explain" ∧ containsAny (pyLowerStr q) generic_terms = true ∧
        containsAny (pyLowerStr q) project_tokens = false then
      { s2 with mode := "none", use_vector := false, use_memory := false,
                use_code := false, use_keywords := false, use_graph := false }
    else s2
  { s3 with use_planning :=
      qlen > 160 ∨ containsAny (pyLowerStr q) planning_triggers = true }

/-! ### Query planning (`_plan_query`, lines 976-994) -/

/-- `str.split('\\n')`: split on newlines, keeping empty pieces. -/
def splitNlGo (cur : List Char) : List Char → List String
  | [] => [⟨cur.reverse⟩]
  | c :: rest =>
    if c = '\n' then ⟨cur.reverse⟩ :: splitNlGo [] rest
    else splitNlGo (c :: cur) rest

/-- `text.split('\\n')` on strings. -/
def splitNl (s : String) : List String := splitNlGo [] s.data

/-- `_plan_query`: the fast-LLM response text is an input; `none` models any
exception raised by the call. -/
def plan_query (llmText : Option String) (query : String) : List String :=
  match llmText with
  | none => [query]
  | some text =>
    let subs := ((splitNl (pyStrip text)).map pyStrip).filter (fun s => s ≠ "")
    if subs = [] then [query] else subs.take 3

/-! ### JSON values and documents -/

/-- JSON values (results of `json.loads`). -/
inductive JVal where
  | null : JVal
  | jbool : Bool → JVal
  | jnum : ℚ → JVal
  | jstr : String → JVal
  | jarr : List JVal → JVal
  | jobj : List (String × JVal) → JVal
deriving Repr

/-- Python truthiness of a JSON value. -/
def jTruthy : JVal → Bool
  | .null => false
  | .jbool b => b
  | .jnum q => q ≠ 0
  | .jstr s => s ≠ ""
  | .jarr xs => !xs.isEmpty
  | .jobj f => !f.isEmpty

/-- Truthiness of `dict.get(...)` results (`None` for a missing key). -/
def jTruthyOpt : Option JVal → Bool
  | none => false
  | some v => jTruthy v

/-- Python `a or b` over `dict.get` results: first truthy operand, else the
second operand as-is. -/
def pyOr (a b : Option JVal) : Option JVal :=
  if jTruthyOpt a then a else b

/-- First value bound to `key` in a JSON object (`dict` lookup). -/
def getField (fields : List (String × JVal)) (key : String) : Option JVal :=
  (fields.find? (fun p => p.1 = key)).map (fun p => p.2)

/-- The `metadata` dictionary of a pipeline document.  Fields that no source
writes are `none` (missing key). -/
structure DocMeta where
  entity : Option String := none
  entityType : Option String := none
  createdAt : Option JVal := none
  updatedAt : Option JVal := none
  doc_type : Option String := none
  source : Option String := none
  path : Option String := none
deriving Repr, Inhabited

/-- A pipeline document (the dicts flowing between the retrieval agents,
re-ranker and compressor).  Optional fields model missing dict keys. -/
structure Doc where
  id : Option String := none
  content : String
  source : Option String := none
  score : Option ℚ := none
  vector_score : Option ℚ := none
  temporal_boost : Option ℚ := none
  final_score : Option ℚ := none
  metadata : DocMeta := {}
deriving Repr, Inhabited

/-! ### Temporal agent boost (`_temporal_agent`, lines 435-486) -/

/-- Epoch seconds of a timestamp value, as computed in `_temporal_agent`:
numeric values go through `datetime.fromtimestamp`; strings through
`datetime.fromisoformat(str(ts).replace('Z', '+00:00'))`, modelled by the
parameter `parseIso` (`none` = parse error).  Python's `bool` is an `int`
subtype, so booleans parse as 1/0.  Other values raise (`none`). -/
def tsEpoch (parseIso : String → Option ℚ) : JVal → Option ℚ
  | .jnum q => some q
  | .jbool b => some (if b then 1 else 0)
  | .jstr s => parseIso (pyReplace s "Z" "+00:00")
  | _ => none

/-- The temporal boost assigned to one document by `_temporal_agent`
(lines 452-484).  `expf` models `math.exp`; `now` is the current time in
epoch seconds; `half_life_days` is `strategy.get('half_life_days', 3)`. -/
def temporal_boost_of (parseIso : String → Option ℚ) (expf : ℚ → ℚ)
    (now half_life_days : ℚ) (m : DocMeta) : ℚ :=
  let ts := pyOr m.updatedAt m.createdAt
  if jTruthyOpt ts then
    match ts with
    | some v =>
      match tsEpoch parseIso v with
      | some epoch =>
        let age_days := max 0 ((now - epoch) / 86400)
        let boost :=
          if age_days ≤ 1 then 3
          else if age_days ≤ 3 then 2
          else if age_days ≤ 7 then 3/2
          else 1 + expf (-(age_days / half_life_days))
        if m.doc_type = some "backtest_result" then boost * (13/10) else boost
      | none => 11/10
    | none => 1
  else 1

/-- `_temporal_agent` tags every document returned by the baseline memory
search with its boost. -/
def temporal_agent_tag (parseIso : String → Option ℚ) (expf : ℚ → ℚ)
    (now half_life_days : ℚ) (docs : List Doc) : List Doc :=
  docs.map (fun d =>
    { d with temporal_boost := some (temporal_boost_of parseIso expf now half_life_days d.metadata) })

/-! ### Deduplication (`multi_agent_retrieval`, lines 370-378) -/

/-- The dedup loop: `hash(doc['content'][:200])` into a seen-set, first
occurrence kept.  `h` models Python's string `hash`. -/
def dedupGo (h : String → ℤ) (seen : List ℤ) : List Doc → List Doc
  | [] => []
  | d :: rest =>
    let k := h (pyTake d.content 200)
    if k ∈ seen then dedupGo h seen rest
    else d :: dedupGo h (k :: seen) rest

/-- Deduplication of the merged retriever outputs. -/
def dedup_documents (h : String → ℤ) (docs : List Doc) : List Doc :=
  dedupGo h [] docs

/-! ### Two-stage re-ranking (`rerank_documents`, lines 547-600) -/

/-- Stage-1 key: `doc.get('score', 0) + doc.get('vector_score', 0)`. -/
def quickScore (d : Doc) : ℚ := d.score.getD 0 + d.vector_score.getD 0

/-- Descending stable order on the stage-1 key (`sorted(..., reverse=True)`
keeps ties in original order, i.e. sorts by strict `>`). -/
def quickGT (a b : Doc) : Prop := quickScore b < quickScore a

instance : DecidableRel quickGT := fun a b =>
  inferInstanceAs (Decidable (quickScore b < quickScore a))

/-- Stage-2 combined score (lines 579-595): cross-encoder base, `+0.2 *`
vector score if present, `*` temporal boost if present, `*1.2` on verbatim
lowercased query occurrence. -/
def combineScore (ce : String → String → ℚ) (query : String) (d : Doc) : ℚ :=
  let base := ce query (pyTake d.content 1000)
  let withVec :=
    match d.vector_score with
    | some v => base + v * (2/10)
    | none => base
  let withTemp :=
    match d.temporal_boost with
    | some t => withVec * t
    | none => withVec
  if strContains (pyLowerStr d.content) (pyLowerStr query) then
    withTemp * (12/10)
  else withTemp

/-- Descending stable order on `final_score`. -/
def finalGT (a b : Doc) : Prop := b.final_score.getD 0 < a.final_score.getD 0

instance : DecidableRel finalGT := fun a b =>
  inferInstanceAs (Decidable (b.final_score.getD 0 < a.final_score.getD 0))

/-- `rerank_documents` (lines 547-600): stage-1 stable sort and cut to
`max(50, 2*top_k)`, stage-2 cross-encoder scoring, stable sort by
`final_score`, cut to `top_k`.  `ce` models `self.reranker.predict` on one
`(query, content[:1000])` pair. -/
def rerank_documents (ce : String → String → ℚ) (query : String)
    (documents : List Doc) (top_k : Nat) : List Doc :=
  if documents.isEmpty then []
  else
    let quick_sorted := documents.insertionSort quickGT
    let candidates_limit := min quick_sorted.length (max 50 (top_k * 2))
    let candidates := quick_sorted.take candidates_limit
    let scored := candidates.map
      (fun d => { d with final_score := some (combineScore ce query d) })
    (scored.insertionSort finalGT).take top_k

/-! ### Context compression (`compress_context`, lines 604-643) -/

/-- The `[Doc i] (Score: s)` header.  `fmt` models Python's `f"{s:.2f}"`
float formatting. -/
def docHeader (fmt : ℚ → String) (i : Nat) (d : Doc) : String :=
  "[Doc " ++ toString (i + 1) ++ "] (Score: " ++ fmt (d.final_score.getD 0) ++ ")\n"

/-- The compression loop of `compress_context` (lines 613-640): returns the
accumulated parts together with the final `current_size` counter.  Note the
counter counts only document-content characters, not headers or suffixes. -/
def compressGo (fmt : ℚ → String) (max_chars : Nat) :
    Nat → Nat → List Doc → (List String × Nat)
  | _, size, [] => ([], size)
  | i, size, d :: rest =>
    let content := d.content
    if i < 10 ∨ d.final_score.getD 0 > 8/10 then
      if size + content.length ≤ max_chars then
        let part := docHeader fmt i d ++ content ++ "\n"
        let next := compressGo fmt max_chars (i + 1) (size + content.length) rest
        (part :: next.1, next.2)
      else
        let remaining : ℤ := (max_chars : ℤ) - (size : ℤ)
        if remaining > 500 then
          ([docHeader fmt i d ++ pyTake content remaining.toNat ++ "... [truncated]\n"],
           size + remaining.toNat)
        else ([], size)
    else
      let summary := if content.length > 1500 then pyTake content 1500 else content
      if size + summary.length ≤ max_chars then
        let part := "[Doc " ++ toString (i + 1) ++ "] (Summary)\n" ++ summary ++ "...\n"
        let next := compressGo fmt max_chars (i + 1) (size + summary.length) rest
        (part :: next.1, next.2)
      else ([], size)

/-- `compress_context` (lines 604-643): empty input gives `""`; otherwise the
parts are joined with `'\n'`. -/
def compress_context (fmt : ℚ → String) (documents : List Doc)
    (max_chars : Nat) : String :=
  if documents.isEmpty then ""
  else String.intercalate "\n" (compressGo fmt max_chars 0 0 documents).1

/-- The `current_size` character counter reported by the compression loop. -/
def compress_size (fmt : ℚ → String) (documents : List Doc)
    (max_chars : Nat) : Nat :=
  (compressGo fmt max_chars 0 0 documents).2

/-! ### Query cache (`rag_system/utils/cache.py`)

The cache directory is modelled as a list of entry files.  `mtime` is the
file modification time set by `write_text`; `ts`/`ttl` are the fields of the
stored JSON record. -/

/-- One cache entry file (`{ts, ttl, payload}` under `<key>.json`). -/
structure CacheEntry (α : Type) where
  key : String
  mtime : ℚ
  ts : ℚ
  ttl : ℤ
  payload : α

/-- The cache directory plus the `QueryCache` configuration
(`default_ttl = max(0, ttl_seconds)`, `max_entries = max(0, max_entries)`). -/
structure CacheState (α : Type) where
  entries : List (CacheEntry α)
  default_ttl : ℤ
  max_entries : Nat

namespace QueryCache

/-- File order used by `_prune`: most recently modified first
(`sorted(..., key=mtime, reverse=True)`). -/
def newerEq {α : Type} (a b : CacheEntry α) : Prop := b.mtime ≤ a.mtime

instance {α : Type} : DecidableRel (newerEq (α := α)) := fun a b =>
  inferInstanceAs (Decidable (b.mtime ≤ a.mtime))

instance {α : Type} : IsTotal (CacheEntry α) newerEq :=
  ⟨fun a b => le_total b.mtime a.mtime⟩

instance {α : Type} : IsTrans (CacheEntry α) newerEq :=
  ⟨fun _ _ _ h1 h2 => le_trans h2 h1⟩

/-- `_prune` (`cache.py:78-85`): keep the `max_entries` most recently
modified files, delete the rest. -/
def prune {α : Type} (max_entries : Nat) (files : List (CacheEntry α)) :
    List (CacheEntry α) :=
  (files.insertionSort newerEq).take max_entries

/-- `QueryCache.set` (`cache.py:56-70`): no-op when `max_entries` is zero
(falsy); otherwise overwrite the key's file with
`{ts: now, ttl: ttl or default_ttl, payload}` and prune. -/
def set {α : Type} (s : CacheState α) (now : ℚ) (key : String) (payload : α)
    (ttl : Option ℤ) : CacheState α :=
  if s.max_entries = 0 then s
  else
    let record : CacheEntry α :=
      { key := key, mtime := now, ts := now, ttl := ttl.getD s.default_ttl,
        payload := payload }
    let files := (s.entries.filter (fun e => e.key ≠ key)) ++ [record]
    { s with entries := prune s.max_entries files }

/-- `QueryCache.get` (`cache.py:35-54`) at wall-clock time `now`: miss on a
missing file; expire (delete, miss) when `ttl` is truthy (non-zero) and
`now - ts > ttl`; hit otherwise.  Returns the result and the directory
after any deletion. -/
def get {α : Type} (s : CacheState α) (now : ℚ) (key : String) :
    Option α × CacheState α :=
  match s.entries.find? (fun e => e.key = key) with
  | none => (none, s)
  | some e =>
    if e.ttl ≠ 0 ∧ (now - e.ts) > (e.ttl : ℚ) then
      (none, { s with entries := s.entries.filter (fun x => x.key ≠ key) })
    else (some e.payload, s)

end QueryCache

/-! ### MCP memory client (`rag_system/rag_system/core/mcp_direct.py`) -/

namespace MCPMemoryDirect

/-- Single-character ANSI escapes: the class `[@-Z\\-_]`. -/
def isAnsiSingle (c : Char) : Bool :=
  (0x40 ≤ c.toNat && c.toNat ≤ 0x5A) || (0x5C ≤ c.toNat && c.toNat ≤ 0x5F)

/-- CSI parameter bytes, code points 0x30 to 0x3F. -/
def isParamByte (c : Char) : Bool := 0x30 ≤ c.toNat && c.toNat ≤ 0x3F

/-- CSI intermediate bytes, code points 0x20 to 0x2F. -/
def isInterByte (c : Char) : Bool := 0x20 ≤ c.toNat && c.toNat ≤ 0x2F

/-- CSI final bytes, code points 0x40 to 0x7E. -/
def isFinalByte (c : Char) : Bool := 0x40 ≤ c.toNat && c.toNat ≤ 0x7E

/-- Scanner state for ANSI stripping: either outside any candidate escape
sequence, or inside a CSI sequence after `ESC [`, holding the parameter and
intermediate bytes read so far (reversed) and whether an intermediate byte
has been seen (after which parameter bytes no longer match). -/
inductive AnsiState where
  | normal
  | csi (sawInter : Bool) (acc : List Char)

/-- The characters examined for a CSI candidate that failed: they are kept
verbatim.  None of them can start a new match, so scanning resumes after
them. -/
def ansiPending : AnsiState → List Char
  | .normal => []
  | .csi _ acc => '\x1B' :: '[' :: acc.reverse

/-- `ansi_escape.sub('', ·)` with the source pattern (`mcp_direct.py:45-46`):
an ESC followed by either one character of `isAnsiSingle` or a CSI sequence
`[` params* intermediates* final is deleted; an ESC starting no match is
kept and scanning resumes after it.  The character classes are pairwise
disjoint, so the greedy scan is exact. -/
def stripAnsiGo : AnsiState → List Char → List Char
  | st, [] => ansiPending st
  | .normal, [c] => [c]
  | .normal, c :: c1 :: rest1 =>
    if c = '\x1B' then
      if isAnsiSingle c1 then stripAnsiGo .normal rest1
      else if c1 = '[' then stripAnsiGo (.csi false []) rest1
      else c :: stripAnsiGo .normal (c1 :: rest1)
    else c :: stripAnsiGo .normal (c1 :: rest1)
  | .csi sawInter acc, [c] =>
    if !sawInter && isParamByte c then ansiPending (.csi false (c :: acc))
    else if isInterByte c then ansiPending (.csi true (c :: acc))
    else if isFinalByte c then []
    else ansiPending (.csi sawInter acc) ++ [c]
  | .csi sawInter acc, c :: c1 :: rest1 =>
    if !sawInter && isParamByte c then stripAnsiGo (.csi false (c :: acc)) (c1 :: rest1)
    else if isInterByte c then stripAnsiGo (.csi true (c :: acc)) (c1 :: rest1)
    else if isFinalByte c then stripAnsiGo .normal (c1 :: rest1)
    else if c = '\x1B' then
      ansiPending (.csi sawInter acc) ++
      (if isAnsiSingle c1 then stripAnsiGo .normal rest1
       else if c1 = '[' then stripAnsiGo (.csi false []) rest1
       else c :: stripAnsiGo .normal (c1 :: rest1))
    else ansiPending (.csi sawInter acc) ++ c :: stripAnsiGo .normal (c1 :: rest1)

/-- ANSI stripping on strings. -/
def stripAnsi (s : String) : String := ⟨stripAnsiGo .normal s.data⟩

/-- The suffix of `l` starting at its first brace, as found by
`clean.find('\x7b', ...)`. -/
def braceFrom : List Char → Option (List Char)
  | [] => none
  | c :: rest => if c = '{' then some (c :: rest) else braceFrom rest

/-- `clean.find('✅')` then `clean.find('\x7b', that index)` then
`clean[json_start:]` (`mcp_direct.py:49-52`): the suffix starting at the
first brace at or after the first check mark; `none` when either search
fails. -/
def afterCheckJson : List Char → Option (List Char)
  | [] => none
  | c :: rest => if c = '✅' then braceFrom (c :: rest) else afterCheckJson rest

/-- The JSON unescaping of `_extract_via_regex` (line 110): replace the
two-character escapes for newline, quote and backslash, in that order. -/
def unescapeJson (s : String) : String :=
  pyReplace (pyReplace (pyReplace s "\\n" "\n") "\\\"" "\"") "\\\\" "\\"

/-- The literal head of the extraction pattern. -/
def litObs : List Char := ("\"observations\":").data

/-- Skip the `\s*` parts of the pattern. -/
def dropSpaces (l : List Char) : List Char := l.dropWhile pyIsSpace

/-- Require one literal character. -/
def expectChar (c : Char) : List Char → Option (List Char)
  | [] => none
  | a :: rest => if a = c then some rest else none

/-- The quoted-string body of the capture group: units are a non-quote
non-backslash character, or a backslash followed by any character except
newline.  The flag is set right after a backslash.  Returns the captured
characters and the rest after the closing quote. -/
def strBodyGo : Bool → List Char → Option (List Char × List Char)
  | _, [] => none
  | false, c :: rest =>
    if c = '"' then some ([], rest)
    else if c = '\\' then (strBodyGo true rest).map (fun p => (c :: p.1, p.2))
    else (strBodyGo false rest).map (fun p => (c :: p.1, p.2))
  | true, c :: rest =>
    if c = '\n' then none
    else (strBodyGo false rest).map (fun p => (c :: p.1, p.2))

def strBody (l : List Char) : Option (List Char × List Char) := strBodyGo false l

/-- One attempt of the observation-extraction pattern at the head of `l`:
the literal head, optional whitespace, an opening bracket, optional
whitespace, a quoted string, optional whitespace and a comma or closing
bracket.  Returns the capture and the rest after the match. -/
def tryObsMatch (l : List Char) : Option (List Char × List Char) :=
  (stripLit litObs l).bind fun r1 =>
  (expectChar '[' (dropSpaces r1)).bind fun r3 =>
  (expectChar '"' (dropSpaces r3)).bind fun r5 =>
  (strBody r5).bind fun p =>
  match dropSpaces p.2 with
  | c :: r8 => if c = ',' ∨ c = ']' then some (p.1, r8) else none
  | [] => none

theorem stripLit_length (lit l r : List Char) (h : stripLit lit l = some r) :
    r.length + lit.length = l.length := by
  induction lit generalizing l with
  | nil =>
    simp only [stripLit, Option.some.injEq] at h
    simp [← h]
  | cons a lit2 ih =>
    cases l with
    | nil => simp [stripLit] at h
    | cons b l2 =>
      by_cases hab : a = b
      · simp only [stripLit, hab, if_true, if_pos] at h
        have := ih l2 h
        simp only [List.length_cons]
        omega
      · simp [stripLit, hab] at h

theorem expectChar_length (c : Char) (l r : List Char)
    (h : expectChar c l = some r) : r.length + 1 = l.length := by
  cases l with
  | nil => simp [expectChar] at h
  | cons a rest =>
    by_cases hac : a = c
    · simp only [expectChar, hac, if_true, if_pos, Option.some.injEq] at h
      simp [← h]
    · simp [expectChar, hac] at h

theorem dropSpaces_length (l : List Char) : (dropSpaces l).length ≤ l.length :=
  (List.dropWhile_sublist _).length_le

theorem strBodyGo_length (l : List Char) : ∀ (b : Bool) (cap r : List Char),
    strBodyGo b l = some (cap, r) → r.length < l.length := by
  induction l with
  | nil => intro b cap r h; cases b <;> simp [strBodyGo] at h
  | cons c rest ih =>
    intro b cap r h
    cases b with
    | false =>
      by_cases h1 : c = '"'
      · subst h1
        rw [show strBodyGo false ('"' :: rest) = some ([], rest) from by
          simp [strBodyGo]] at h
        simp only [Option.some.injEq, Prod.mk.injEq] at h
        simp [← h.2]
      · by_cases h2 : c = '\\'
        · subst h2
          rw [show strBodyGo false ('\\' :: rest) =
              (strBodyGo true rest).map (fun p => ('\\' :: p.1, p.2)) from by
            simp [strBodyGo]] at h
          cases hb : strBodyGo true rest with
          | none => rw [hb] at h; simp at h
          | some p =>
            rw [hb] at h
            simp only [Option.map_some', Option.some.injEq, Prod.mk.injEq] at h
            have := ih true p.1 p.2 hb
            rw [← h.2]
            simp only [List.length_cons]
            omega
        · rw [show strBodyGo false (c :: rest) =
              (strBodyGo false rest).map (fun p => (c :: p.1, p.2)) from by
            simp [strBodyGo, h1, h2]] at h
          cases hb : strBodyGo false rest with
          | none => rw [hb] at h; simp at h
          | some p =>
            rw [hb] at h
            simp only [Option.map_some', Option.some.injEq, Prod.mk.injEq] at h
            have := ih false p.1 p.2 hb
            rw [← h.2]
            simp only [List.length_cons]
            omega
    | true =>
      by_cases h1 : c = '\n'
      · simp [strBodyGo, h1] at h
      · rw [show strBodyGo true (c :: rest) =
            (strBodyGo false rest).map (fun p => (c :: p.1, p.2)) from by
          simp [strBodyGo, h1]] at h
        cases hb : strBodyGo false rest with
        | none => rw [hb] at h; simp at h
        | some p =>
          rw [hb] at h
          simp only [Option.map_some', Option.some.injEq, Prod.mk.injEq] at h
          have := ih false p.1 p.2 hb
          rw [← h.2]
          simp only [List.length_cons]
          omega

theorem strBody_length (l cap r : List Char) (h : strBody l = some (cap, r)) :
    r.length < l.length := strBodyGo_length l false cap r h

theorem tryObsMatch_length (l cap r : List Char)
    (h : tryObsMatch l = some (cap, r)) : r.length < l.length := by
  unfold tryObsMatch at h
  rcases Option.bind_eq_some.1 h with ⟨r1, h1, h⟩
  rcases Option.bind_eq_some.1 h with ⟨r3, h3, h⟩
  rcases Option.bind_eq_some.1 h with ⟨r5, h5, h⟩
  rcases Option.bind_eq_some.1 h with ⟨p, hp, h⟩
  have l1 := stripLit_length _ _ _ h1
  have l3 := expectChar_length _ _ _ h3
  have l5 := expectChar_length _ _ _ h5
  have lp := strBody_length _ _ _ hp
  have d1 := dropSpaces_length r1
  have d3 := dropSpaces_length r3
  have dp := dropSpaces_length p.2
  have hlit : litObs.length = 15 := by decide
  cases hd : dropSpaces p.2 with
  | nil => rw [hd] at h; simp at h
  | cons c r8 =>
    rw [hd] at h
    by_cases hc : c = ',' ∨ c = ']'
    · simp only [hc, if_true, if_pos, Option.some.injEq, Prod.mk.injEq] at h
      have hr : r8 = r := h.2
      have hlen : r8.length + 1 = (dropSpaces p.2).length := by rw [hd]; simp
      rw [← hr]
      omega
    · simp [hc] at h

/-- `re.findall` of the extraction pattern, fuelled: scan left to right,
restart one character later on failure, continue after the match on
success.  Each step strictly shortens the list (`tryObsMatch_length`), so
any fuel of at least the list length gives the full scan
(`findObsGo_fuel_irrelevant`). -/
def findObsGo : Nat → List Char → List (List Char)
  | 0, _ => []
  | _ + 1, [] => []
  | fuel + 1, c :: rest =>
    match tryObsMatch (c :: rest) with
    | some (cap, after) => cap :: findObsGo fuel after
    | none => findObsGo fuel rest

/-- The scan of `_extract_via_regex` (line 106). -/
def findObsMatches (l : List Char) : List (List Char) := findObsGo l.length l

/-- The fuel is immaterial once it covers the list length, so
`findObsMatches` is the unbounded left-to-right scan of `re.findall`. -/
theorem findObsGo_fuel_irrelevant (fuel : Nat) (l : List Char)
    (h : l.length ≤ fuel) (fuel2 : Nat) (h2 : l.length ≤ fuel2) :
    findObsGo fuel l = findObsGo fuel2 l := by
  induction fuel generalizing l fuel2 with
  | zero =>
    have : l = [] := List.length_eq_zero.1 (Nat.le_zero.1 h)
    subst this
    cases fuel2 <;> rfl
  | succ fuel ih =>
    cases l with
    | nil => cases fuel2 <;> rfl
    | cons c rest =>
      cases fuel2 with
      | zero => simp at h2
      | succ fuel2 =>
        simp only [List.length_cons] at h h2
        show (match tryObsMatch (c :: rest) with
          | some (cap, after) => cap :: findObsGo fuel after
          | none => findObsGo fuel rest) =
          (match tryObsMatch (c :: rest) with
          | some (cap, after) => cap :: findObsGo fuel2 after
          | none => findObsGo fuel2 rest)
        cases hm : tryObsMatch (c :: rest) with
        | none => exact ih rest (by omega) fuel2 (by omega)
        | some p =>
          obtain ⟨cap, after⟩ := p
          have := tryObsMatch_length _ _ _ hm
          simp only [List.length_cons] at this
          show cap :: findObsGo fuel after = cap :: findObsGo fuel2 after
          rw [ih after (by omega) fuel2 (by omega)]

/-- `_extract_via_regex` (`mcp_direct.py:96-119`): scan the first 500 000
characters, unescape each captured observation, keep those longer than
100 characters. -/
def extract_via_regex (text : String) (limit : Nat) : List Doc :=
  let ms := findObsMatches (text.data.take 500000)
  (ms.take limit).filterMap (fun cap =>
    let content := unescapeJson (String.mk cap)
    if 100 < content.length then
      some { id := none, content := content, score := some 1,
             metadata := { source := some "regex_extraction" } }
    else none)

/-- The document built for one observation string (`mcp_direct.py:69-78`):
`content`, `score: 1.0` and entity metadata — note there is no `id` key. -/
def mkMemoryDoc (obs ent_name ent_type : String)
    (created updated : Option JVal) : Doc :=
  { id := none, content := obs, score := some 1,
    metadata := { entity := some ent_name, entityType := some ent_type,
                  createdAt := created, updatedAt := updated } }

/-- Documents produced from one entity of the parsed JSON
(`mcp_direct.py:60-78`).  `none` models an exception escaping to the outer
handler (non-dict entity, non-string observation).  Iterating a string
yields its characters and iterating a dict yields its keys, as in Python;
`entity.get('name', '')` values that are not strings are coerced to the
default (nothing downstream reads them). -/
def obsDocsOfEntity (e : JVal) : Option (List Doc) :=
  match e with
  | .jobj f =>
    let ent_name := match getField f "name" with | some (.jstr s) => s | _ => ""
    let ent_type := match getField f "entityType" with | some (.jstr s) => s | _ => ""
    let ent_created := pyOr (getField f "createdAt") (getField f "created_at")
    let ent_updated := pyOr (getField f "updatedAt") (getField f "updated_at")
    let keep := fun (s : String) => 100 < (pyStrip s).length
    let mk := fun (obs : String) => mkMemoryDoc obs ent_name ent_type ent_created ent_updated
    match (getField f "observations").getD (JVal.jarr []) with
    | .jarr xs =>
      (xs.mapM (fun x : JVal =>
        match x with | JVal.jstr s => some s | _ => (none : Option String))).map
        (fun ss : List String => (ss.filter keep).map mk)
    | .jstr s => some ((((s.data.map (fun c => String.mk [c]))).filter keep).map mk)
    | .jobj g => some (((g.map (fun p => p.1)).filter keep).map mk)
    | _ => none
  | _ => none

/-- The extraction from well-formed JSON (`mcp_direct.py:57-80`):
`data['entities'][:limit]`, observations longer than 100 characters after
stripping, result cut to `limit`.  `none` models an exception escaping to
the outer `except` handler. -/
def extractEntities (data : JVal) (limit : Nat) : Option (List Doc) :=
  match data with
  | .jobj f =>
    match getField f "entities" with
    | some (.jarr ents) =>
      ((ents.take limit).mapM obsDocsOfEntity).map
        (fun ds => (ds.flatten).take limit)
    | some _ => none
    | none => some []
  | .jstr s => if strContains s "entities" then none else some []
  | _ => some []

/-- The outcome of the `subprocess.run` call in `MCPMemoryDirect.search`. -/
inductive ProcOutcome where
  | timeout
  | exc
  | done (returncode : Int) (stdout : String)

/-- `MCPMemoryDirect.search` (`mcp_direct.py:21-94`): timeout and any other
exception give `[]`; non-zero exit gives `[]`; otherwise strip ANSI codes,
locate the JSON block after the check mark, parse it (`jsonParse` models
`json.loads`; `none` = `JSONDecodeError`), extract entity observations, and
on a parse failure fall back to the regex extraction over the cleaned
output. -/
def search (jsonParse : String → Option JVal) (outcome : ProcOutcome)
    (limit : Nat) : List Doc :=
  match outcome with
  | .timeout => []
  | .exc => []
  | .done rc out =>
    if rc ≠ 0 then []
    else
      let clean := stripAnsi out
      match afterCheckJson clean.data with
      | none => []
      | some json =>
        match jsonParse (String.mk json) with
        | some data => (extractEntities data limit).getD []
        | none => extract_via_regex clean limit

end MCPMemoryDirect

/-! ### Cache key construction (`_build_cache_key`, lines 143-165, and
`QueryCache.make_key`, `cache.py:29-33`) -/

/-- Minimal JSON string escaping of `json.dumps` (quote, backslash and the
common control characters; `ensure_ascii=False` keeps other characters). -/
def jsonEscapeChar (c : Char) : String :=
  if c = '"' then "\\\""
  else if c = '\\' then "\\\\"
  else if c = '\n' then "\\n"
  else if c = '\t' then "\\t"
  else if c = '\r' then "\\r"
  else String.singleton c

def jsonStr (s : String) : String :=
  "\"" ++ String.join (s.data.map jsonEscapeChar) ++ "\""

def jsonBool (b : Bool) : String := if b then "true" else "false"

/-- `json.dumps(key_parts, sort_keys=True, ensure_ascii=False)` for the
`key_parts` dictionary of `_build_cache_key` (lines 155-164); keys appear in
sorted order. -/
def cache_key_payload (project normalized_query intent : String)
    (top_k context_max : Nat) (uv um ur : Bool) : String :=
  "\x7b\"context_max\": " ++ toString context_max ++
  ", \"intent\": " ++ jsonStr intent ++
  ", \"memory\": " ++ jsonBool um ++
  ", \"project\": " ++ jsonStr project ++
  ", \"query\": " ++ jsonStr normalized_query ++
  ", \"recent\": " ++ jsonBool ur ++
  ", \"top_k\": " ++ toString top_k ++
  ", \"vector\": " ++ jsonBool uv ++ "\x7d"

/-- `_build_cache_key` (lines 143-165): `None` when the cache is disabled;
otherwise `make_key` = SHA-256 (the opaque `sha256` parameter) of the
canonical JSON of the normalized key parts. -/
def build_cache_key (sha256 : String → String) (cache_enabled : Bool)
    (project : String) (context_max : Nat) (query : String)
    (pq : ProcessedQuery) (strategy : Strategy) : Option String :=
  if cache_enabled then
    some (sha256 (cache_key_payload project (normalize_query query) pq.intent
      strategy.top_k context_max strategy.use_vector strategy.use_memory
      strategy.use_recent))
  else none

/-! ### Answer generation and the pipeline controller (`query`) -/

/-- The no-context sentinel answer (`generate_answer`, line 653). -/
def no_info_sentinel : String :=
  "❌ Não encontrei informações relevantes na base de conhecimento."

/-- `generate_answer` (lines 647-704): the sentinel on empty context,
otherwise the main-LLM answer.  The chain-of-thought prompt construction is
folded into the opaque `llm` parameter (it is a pure format of query,
metadata and context). -/
def generate_answer (llm : String → String → String)
    (query context : String) : String :=
  if context = "" then no_info_sentinel else llm query context

/-- The Run Record fields logged and cached by `query` (the wall-clock
`timestamp` string is omitted). -/
structure RunRecord where
  query : String
  intent : String
  retrieved : Nat
  reranked : Nat
  context_chars : Nat
  confidence : ℚ
  elapsed_sec : ℚ
  from_cache : Bool
  answer : String
  project : String
  cache_ttl : ℤ
deriving Repr

/-- The `AdvancedRAGv2` instance configuration relevant to `query`:
project name, `RAG_CONTEXT_CHARS`, `RAG_TOP_K`, cache enablement and the
intent TTL policy (env defaults from lines 100-129). -/
structure RagConfig where
  project_name : String
  context_max_chars : Nat
  default_top_k : Nat
  cache_enabled : Bool
  cache_default_ttl : ℤ := 900
  ttl_status : ℤ := 180
  ttl_general : ℤ := 600
  ttl_explain : ℤ := 600
  ttl_code : ℤ := 90

/-- `self.intent_cache_policy.get(intent)` (lines 124-129). -/
def intent_cache_policy (cfg : RagConfig) (intent : String) : Option ℤ :=
  if intent = "status" then some cfg.ttl_status
  else if intent = "general" then some cfg.ttl_general
  else if intent = "explain" then some cfg.ttl_explain
  else if intent = "code" then some cfg.ttl_code
  else none

/-- `_cache_ttl_for_intent` (lines 1081-1087). -/
def cache_ttl_for_intent (cfg : RagConfig) (intent : String) : ℤ :=
  if cfg.cache_enabled = false then 0
  else
    match intent_cache_policy cfg intent with
    | none => cfg.cache_default_ttl
    | some ttl => if ttl < 0 then cfg.cache_default_ttl else ttl

/-- The external inputs of one `query` run: the fast-LLM analysis lists, the
cache contents, the merged retrieval result (including any planning union;
thread completion order is abstracted, see `dedup_documents` for the merge),
the cross-encoder, the main LLM, the score formatter of the compressor, and
the elapsed wall-clock time. -/
structure QueryEnv where
  concepts : List String
  expansions : List String
  sha256 : String → String
  cacheGet : String → Option RunRecord
  retrieved_docs : List Doc
  ce : String → String → ℚ
  llm : String → String → String
  fmt : ℚ → String
  elapsed : ℚ

/-- The analyzed query of one run. -/
def query_processed (env : QueryEnv) (q : String) : ProcessedQuery :=
  process_query env.concepts env.expansions q

/-- The strategy chosen for one run. -/
def query_strategy (cfg : RagConfig) (env : QueryEnv) (q : String) : Strategy :=
  decide_retrieval_strategy cfg.default_top_k (query_processed env q)

/-- The cache probe of one run: key construction (line 740) followed by
`self.cache.get` (line 741), reading the cache contents through
`env.cacheGet`. -/
def cache_probe (cfg : RagConfig) (env : QueryEnv) (q : String) :
    Option RunRecord :=
  (build_cache_key env.sha256 cfg.cache_enabled cfg.project_name
    cfg.context_max_chars q (query_processed env q)
    (query_strategy cfg env q)).bind env.cacheGet

/-- Stage 3 of one run (line 830). -/
def query_reranked (cfg : RagConfig) (env : QueryEnv) (q : String) : List Doc :=
  rerank_documents env.ce q env.retrieved_docs (query_strategy cfg env q).top_k

/-- Stage 4 of one run (line 833). -/
def query_context (cfg : RagConfig) (env : QueryEnv) (q : String) : String :=
  compress_context env.fmt (query_reranked cfg env q) cfg.context_max_chars

/-- The cache-hit exit (lines 742-764): serve the stored answer and
confidence, log a record copied from the payload with updated query,
intent, elapsed time, `from_cache=True` and project. -/
def cache_hit_result (cfg : RagConfig) (env : QueryEnv) (q : String)
    (payload : RunRecord) : String × ℚ × RunRecord :=
  (payload.answer, payload.confidence,
   { payload with
     query := q
     intent := (query_processed env q).intent
     elapsed_sec := env.elapsed
     from_cache := true
     project := cfg.project_name })

/-- The `mode='none'` exit (lines 767-790): answer generated with empty
context (hence the sentinel), confidence 50. -/
def mode_none_result (cfg : RagConfig) (env : QueryEnv) (q : String) :
    String × ℚ × RunRecord :=
  (generate_answer env.llm q "", 50,
   { query := q
     intent := (query_processed env q).intent
     retrieved := 0
     reranked := 0
     context_chars := 0
     confidence := 50
     elapsed_sec := env.elapsed
     from_cache := false
     answer := generate_answer env.llm q ""
     project := cfg.project_name
     cache_ttl := cache_ttl_for_intent cfg (query_processed env q).intent })

/-- The empty-retrieval exit (lines 806-827): sentinel answer,
confidence 0. -/
def no_docs_result (cfg : RagConfig) (env : QueryEnv) (q : String) :
    String × ℚ × RunRecord :=
  (no_info_sentinel, 0,
   { query := q
     intent := (query_processed env q).intent
     retrieved := 0
     reranked := 0
     context_chars := 0
     confidence := 0
     elapsed_sec := env.elapsed
     from_cache := false
     answer := no_info_sentinel
     project := cfg.project_name
     cache_ttl := cache_ttl_for_intent cfg (query_processed env q).intent })

/-- The main path (lines 829-877): re-rank, compress, generate, and
`confidence = min(100, len(reranked_docs) * 2.0)` (line 844). -/
def main_result (cfg : RagConfig) (env : QueryEnv) (q : String) :
    String × ℚ × RunRecord :=
  (generate_answer env.llm q (query_context cfg env q),
   min 100 (((query_reranked cfg env q).length : ℚ) * 2),
   { query := q
     intent := (query_processed env q).intent
     retrieved := env.retrieved_docs.length
     reranked := (query_reranked cfg env q).length
     context_chars := (query_context cfg env q).length
     confidence := min 100 (((query_reranked cfg env q).length : ℚ) * 2)
     elapsed_sec := env.elapsed
     from_cache := false
     answer := generate_answer env.llm q (query_context cfg env q)
     project := cfg.project_name
     cache_ttl := cache_ttl_for_intent cfg (query_processed env q).intent })

/-- `AdvancedRAGv2.query` (lines 708-877): analysis, strategy, cache probe,
the `mode='none'` early exit, the empty-retrieval sentinel exit, and the
re-rank / compress / generate main path.  Returns the
`(answer, confidence)` pair of the source together with the Run Record it
logs. -/
def query (cfg : RagConfig) (env : QueryEnv) (user_query : String) :
    String × ℚ × RunRecord :=
  match cache_probe cfg env user_query with
  | some payload => cache_hit_result cfg env user_query payload
  | none =>
    if (query_strategy cfg env user_query).mode = "none" then
      mode_none_result cfg env user_query
    else if env.retrieved_docs.isEmpty then
      no_docs_result cfg env user_query
    else
      main_result cfg env user_query

/-! ## Claims -/

/-! ### C6: generic definitional queries and `mode='none'` -/

/-- Helper facts used by several planner proofs: the `mode='none'` rule is
the only rule that writes `mode`, and the final update only sets
`use_planning`. -/
theorem decide_retrieval_strategy_mode (k : Nat) (pq : ProcessedQuery) :
    (decide_retrieval_strategy k pq).mode =
      (if pq.intent = "explain" ∧
          containsAny (pyLowerStr pq.original) generic_terms = true ∧
          containsAny (pyLowerStr pq.original) project_tokens = false
        then "none" else "hybrid") := by
  simp only [decide_retrieval_strategy]
  split_ifs <;> rfl

/-- C6 (counterexample): the query `"o que é um cache"` contains the generic
definitional marker `"o que é"` and none of the project tokens, yet its
classified intent is `general`, the `mode='none'` rule (which additionally
requires intent `explain`) does not fire, and the planner returns
`mode='hybrid'`, not `mode='none'`. -/
theorem c6_counterexample :
    containsAny (pyLowerStr "o que é um cache") generic_terms = true ∧
    containsAny (pyLowerStr "o que é um cache") project_tokens = false ∧
    classify_intent "o que é um cache" = "general" ∧
    (decide_retrieval_strategy 40 (process_query [] [] "o que é um cache")).mode
      = "hybrid" := by
  refine ⟨by decide, by decide, by decide, by decide⟩

/-- C6 (amended): for every analyzed query whose classified intent is
`explain`, whose text contains a generic definitional phrase
(`'o que é'`, `'defina'`, `'definição de'`) and none of the project tokens
(`'selector21'`, `'botscalp'`, `'mcp'`, `'rag'`), the strategy planner
returns `mode='none'`. -/
theorem c6_amended (k : Nat) (pq : ProcessedQuery)
    (h1 : pq.intent = "explain")
    (h2 : containsAny (pyLowerStr pq.original) generic_terms = true)
    (h3 : containsAny (pyLowerStr pq.original) project_tokens = false) :
    (decide_retrieval_strategy k pq).mode = "none" := by
  rw [decide_retrieval_strategy_mode]
  rw [if_pos ⟨h1, h2, h3⟩]

/-- C6 (witness): the amended rule at the concrete query
`"explique o que é um cache"` (intent `explain`). -/
theorem c6_amended_witness :
    (decide_retrieval_strategy 40
      (process_query [] [] "explique o que é um cache")).mode = "none" :=
  c6_amended 40 (process_query [] [] "explique o que é um cache")
    (by decide) (by decide) (by decide)

/-! ### C9: `use_keywords` in the planner -/

/-- C9 (counterexample): for the query `"mostre a função de compressão"`
(intent `code`, not an objective question) the planner returns a hybrid
strategy with `use_keywords = false`: the base default is
`use_keywords = (intent != 'code')`, not `true`. -/
theorem c9_counterexample :
    classify_intent "mostre a função de compressão" = "code" ∧
    (decide_retrieval_strategy 40
      (process_query [] [] "mostre a função de compressão")).mode = "hybrid" ∧
    (decide_retrieval_strategy 40
      (process_query [] [] "mostre a função de compressão")).use_keywords
      = false := by
  refine ⟨by decide, by decide, by decide⟩

/-- C9 (amended): the planner's base defaults set
`use_keywords = (intent != 'code')`; the objective-question rule re-enables
it, and only the `mode='none'` rule disables it afterwards.  Hence every
Strategy with `mode='hybrid'` has
`use_keywords = (intent != 'code' or the query is objective)`: keyword
retrieval is enabled for every non-code intent, but not for non-objective
code-intent queries. -/
theorem c9_amended (k : Nat) (pq : ProcessedQuery)
    (hmode : (decide_retrieval_strategy k pq).mode = "hybrid") :
    (decide_retrieval_strategy k pq).use_keywords =
      (decide (pq.intent ≠ "code") || is_objective pq.original) := by
  have hnone : ¬ (pq.intent = "explain" ∧
      containsAny (pyLowerStr pq.original) generic_terms = true ∧
      containsAny (pyLowerStr pq.original) project_tokens = false) := by
    intro hc
    rw [decide_retrieval_strategy_mode, if_pos hc] at hmode
    exact absurd hmode (by decide)
  clear hmode
  simp only [decide_retrieval_strategy]
  split_ifs <;> simp_all

/-- C9 (witness): the amended statement at the counterexample query — mode
is hybrid and `use_keywords` equals the re-derived formula (false here). -/
theorem c9_amended_witness :
    (decide_retrieval_strategy 40
      (process_query [] [] "mostre a função de compressão")).use_keywords =
      (decide ((process_query [] [] "mostre a função de compressão").intent
        ≠ "code") ||
       is_objective (process_query [] [] "mostre a função de compressão").original) :=
  c9_amended 40 (process_query [] [] "mostre a função de compressão") (by decide)

/-! ### C10: query planning fallback -/

/-- C10: `_plan_query` always returns a non-empty list of at most 3
sub-questions; a failed LLM call (`none`) or a response with no non-blank
lines yields exactly `[query]`. -/
theorem c10_theorem :
    (∀ r q, plan_query r q ≠ []) ∧
    (∀ r q, (plan_query r q).length ≤ 3) ∧
    (∀ q, plan_query none q = [q]) ∧
    (∀ text q,
      (((splitNl (pyStrip text)).map pyStrip).filter (fun s => s ≠ "")) = [] →
      plan_query (some text) q = [q]) := by
  refine ⟨?_, ?_, ?_, ?_⟩
  · intro r q
    cases r with
    | none => simp [plan_query]
    | some text =>
      simp only [plan_query]
      split
      · simp
      · rename_i hne
        intro hcontra
        cases hsubs : ((splitNl (pyStrip text)).map pyStrip).filter
            (fun s => s ≠ "") with
        | nil => exact hne hsubs
        | cons a rest => rw [hsubs] at hcontra; simp [List.take] at hcontra
  · intro r q
    cases r with
    | none => simp [plan_query]
    | some text =>
      simp only [plan_query]
      split
      · simp
      · exact List.length_take_le 3 _
  · intro q; rfl
  · intro text q hempty
    simp only [plan_query]
    rw [if_pos hempty]

/-- C10 (witness): a whitespace-only LLM response at a concrete query falls
back to the one-element list with the original query. -/
theorem c10_witness : plan_query (some "  \n ") "qual o status" = ["qual o status"] :=
  c10_theorem.2.2.2 "  \n " "qual o status" (by decide)

/-! ### C8: memory search client error handling -/

/-- C8: the memory search client is total (no exception escapes; the
embedding's `search` is a function): a subprocess timeout returns `[]`, any
other subprocess exception returns `[]`, a non-zero exit status returns `[]`,
unparseable JSON after the check mark falls back to the regex extraction
over the ANSI-cleaned output, and every document the regex fallback keeps is
a quoted observation longer than 100 characters after unescaping. -/
theorem c8_theorem :
    (∀ (jp : String → Option JVal) (lim : Nat),
      MCPMemoryDirect.search jp MCPMemoryDirect.ProcOutcome.timeout lim = []) ∧
    (∀ (jp : String → Option JVal) (lim : Nat),
      MCPMemoryDirect.search jp MCPMemoryDirect.ProcOutcome.exc lim = []) ∧
    (∀ (jp : String → Option JVal) (lim : Nat) (rc : Int) (out : String),
      rc ≠ 0 →
      MCPMemoryDirect.search jp (MCPMemoryDirect.ProcOutcome.done rc out) lim = []) ∧
    (∀ (jp : String → Option JVal) (lim : Nat) (out : String) (json : List Char),
      MCPMemoryDirect.afterCheckJson (MCPMemoryDirect.stripAnsi out).data = some json →
      jp (String.mk json) = none →
      MCPMemoryDirect.search jp (MCPMemoryDirect.ProcOutcome.done 0 out) lim =
        MCPMemoryDirect.extract_via_regex (MCPMemoryDirect.stripAnsi out) lim) ∧
    (∀ (text : String) (lim : Nat) (d : Doc),
      d ∈ MCPMemoryDirect.extract_via_regex text lim → 100 < d.content.length) := by
  refine ⟨fun _ _ => rfl, fun _ _ => rfl, ?_, ?_, ?_⟩
  · intro jp lim rc out hrc
    simp only [MCPMemoryDirect.search]
    rw [if_pos hrc]
  · intro jp lim out json hjson hparse
    simp only [MCPMemoryDirect.search]
    rw [if_neg (by simp)]
    rw [hjson]
    show (match jp (String.mk json) with
      | some data => (MCPMemoryDirect.extractEntities data lim).getD []
      | none => MCPMemoryDirect.extract_via_regex (MCPMemoryDirect.stripAnsi out) lim)
      = MCPMemoryDirect.extract_via_regex (MCPMemoryDirect.stripAnsi out) lim
    rw [hparse]
  · intro text lim d hd
    simp only [MCPMemoryDirect.extract_via_regex] at hd
    rcases List.mem_filterMap.1 hd with ⟨cap, _, hcap⟩
    split at hcap
    · rename_i hlen
      cases hcap
      simpa using hlen
    · cases hcap

/-- C8 (witness): the timeout and a non-zero exit status at concrete inputs
both produce the empty list. -/
theorem c8_witness :
    MCPMemoryDirect.search (fun _ => none) MCPMemoryDirect.ProcOutcome.timeout 3 = [] ∧
    MCPMemoryDirect.search (fun _ => none)
      (MCPMemoryDirect.ProcOutcome.done 1 "boom") 3 = [] :=
  ⟨c8_theorem.1 (fun _ => none) 3,
   c8_theorem.2.2.1 (fun _ => none) 3 1 "boom" (by decide)⟩

/-! ### C4: deduplication and document ids -/

/-- A 105-character observation, long enough to pass the memory client's
length filter. -/
def sampleObs : String := String.mk (List.replicate 105 'a')

/-- A parsed memory-service response with one entity holding `sampleObs`. -/
def sampleMemoryJson : JVal :=
  JVal.jobj [("entities", JVal.jarr
    [JVal.jobj [("observations", JVal.jarr [JVal.jstr sampleObs]),
                ("name", JVal.jstr "Entity1")]])]

/-- The string hash used by the counterexample (Python's `hash` is opaque;
the claim fails for every hash). -/
def sampleHash (s : String) : ℤ := (s.length : ℤ)

/-- C4 (counterexample): a document produced by the memory search client
(`mcp_direct.py:69-78` builds dicts with no `'id'` key) survives the
orchestrator's deduplication — which keys on `hash(content[:200])`, not on
ids — without any `id` field, so not every surviving document has an `id`. -/
theorem c4_counterexample :
    (dedup_documents sampleHash
      (MCPMemoryDirect.search (fun _ => some sampleMemoryJson)
        (MCPMemoryDirect.ProcOutcome.done 0 "✅\x7b") 5)).length = 1 ∧
    ((dedup_documents sampleHash
      (MCPMemoryDirect.search (fun _ => some sampleMemoryJson)
        (MCPMemoryDirect.ProcOutcome.done 0 "✅\x7b") 5)).all
      (fun d => d.id.isSome)) = false := by
  constructor
  · set_option maxRecDepth 3000 in decide
  · set_option maxRecDepth 3000 in decide

/-- The dedup loop keeps no document whose key is in `seen` and never keeps
two documents with the same key. -/
theorem dedupGo_pairwise (h : String → ℤ) (docs : List Doc) :
    ∀ seen : List ℤ,
      (∀ d ∈ dedupGo h seen docs, h (pyTake d.content 200) ∉ seen) ∧
      (dedupGo h seen docs).Pairwise
        (fun a b => h (pyTake a.content 200) ≠ h (pyTake b.content 200)) := by
  induction docs with
  | nil => intro seen; simp [dedupGo]
  | cons d rest ih =>
    intro seen
    by_cases hk : h (pyTake d.content 200) ∈ seen
    · rw [show dedupGo h seen (d :: rest) = dedupGo h seen rest by
        simp [dedupGo, hk]]
      exact ih seen
    · rw [show dedupGo h seen (d :: rest) =
          d :: dedupGo h (h (pyTake d.content 200) :: seen) rest by
        simp [dedupGo, hk]]
      have ihs := ih (h (pyTake d.content 200) :: seen)
      constructor
      · intro x hx
        rcases List.mem_cons.1 hx with rfl | hx2
        · exact hk
        · intro hmem
          exact ihs.1 x hx2 (List.mem_cons_of_mem _ hmem)
      · refine List.pairwise_cons.2 ⟨?_, ihs.2⟩
        intro b hb
        have := ihs.1 b hb
        intro heq
        exact this (heq ▸ List.mem_cons_self _ _)

/-- C4 (amended): after the orchestrator's deduplication, the surviving
documents have pairwise-distinct `hash(content[:200])` keys (first
occurrence wins); documents need not carry an `id` field — memory and
vector documents have none. -/
theorem c4_amended (h : String → ℤ) (docs : List Doc) :
    (dedup_documents h docs).Pairwise
      (fun a b => h (pyTake a.content 200) ≠ h (pyTake b.content 200)) :=
  (dedupGo_pairwise h docs []).2

/-! ### C5: cache-key normalization -/

/-- C5 (counterexample): the normalization is not idempotent.  For the query
`". a"` the first pass strips nothing (the string starts with `'.'`), then
punctuation removal exposes a fresh leading space, giving `" a"`; a second
pass strips it, giving `"a"`. -/
theorem c5_counterexample :
    normalize_query (normalize_query ". a") ≠ normalize_query ". a" := by
  decide

/-- C5 (amended): normalizing a normalized query only strips the
leading/trailing whitespace that punctuation removal may have exposed
(`n ∘ n = strip ∘ n`, so normalization is idempotent exactly on queries
whose normal form has no leading/trailing space); and any two queries with
identical normalization, with the same project, intent, `top_k`,
`context_max` and retrieval flags, produce the same cache key. -/
theorem c5_amended :
    (∀ q : String,
      normalize_query (normalize_query q) = pyStrip (normalize_query q)) ∧
    (∀ (sha256 : String → String) (enabled : Bool) (project : String)
        (cm : Nat) (q1 q2 : String) (pq1 pq2 : ProcessedQuery)
        (s1 s2 : Strategy),
      normalize_query q1 = normalize_query q2 →
      pq1.intent = pq2.intent →
      s1.top_k = s2.top_k →
      s1.use_vector = s2.use_vector →
      s1.use_memory = s2.use_memory →
      s1.use_recent = s2.use_recent →
      build_cache_key sha256 enabled project cm q1 pq1 s1 =
        build_cache_key sha256 enabled project cm q2 pq2 s2) := by
  constructor
  · intro q
    show (⟨normalizeL (normalize_query q).data⟩ : String) = ⟨stripL (normalize_query q).data⟩
    rw [show (normalize_query q).data = normalizeL q.data from rfl]
    rw [normalizeL_normalizeL]
  · intro sha256 enabled project cm q1 q2 pq1 pq2 s1 s2 hq hi htk huv hum hur
    unfold build_cache_key
    rw [hq, hi, htk, huv, hum, hur]

/-- C5 (witness): `"A  b."` and `"a b"` normalize identically (`"a b"`) and
therefore get the same cache key under the same configuration. -/
theorem c5_amended_witness :
    build_cache_key id true "scalp" 120000 "A  b."
      (process_query [] [] "A  b.") (decide_retrieval_strategy 40 (process_query [] [] "A  b.")) =
    build_cache_key id true "scalp" 120000 "a b"
      (process_query [] [] "A  b.") (decide_retrieval_strategy 40 (process_query [] [] "A  b.")) :=
  c5_amended.2 id true "scalp" 120000 "A  b." "a b"
    (process_query [] [] "A  b.") (process_query [] [] "A  b.")
    (decide_retrieval_strategy 40 (process_query [] [] "A  b."))
    (decide_retrieval_strategy 40 (process_query [] [] "A  b."))
    (by decide) rfl rfl rfl rfl rfl

/-! ### C7: temporal boost schedule -/

/-- C7: for every document of the temporal retriever, (a) a document with no
truthy `updatedAt`/`createdAt` timestamp gets boost exactly 1.0 — including
`backtest_result` documents — and (b) a document whose timestamp parses to
epoch `e` gets the schedule at `age = max 0 ((now - e)/86400)` — 3.0 if
`age ≤ 1` day, 2.0 if `age ≤ 3`, 1.5 if `age ≤ 7`, else
`1 + exp(-age/half_life)` — times the extra 1.3 multiplier exactly when
`metadata['doc_type'] == 'backtest_result'`. -/
theorem c7_theorem :
    (∀ (parseIso : String → Option ℚ) (expf : ℚ → ℚ) (now hl : ℚ) (m : DocMeta),
      jTruthyOpt (pyOr m.updatedAt m.createdAt) = false →
      temporal_boost_of parseIso expf now hl m = 1) ∧
    (∀ (parseIso : String → Option ℚ) (expf : ℚ → ℚ) (now hl : ℚ)
        (m : DocMeta) (v : JVal) (e : ℚ),
      pyOr m.updatedAt m.createdAt = some v →
      jTruthy v = true →
      tsEpoch parseIso v = some e →
      temporal_boost_of parseIso expf now hl m =
        (if max 0 ((now - e) / 86400) ≤ 1 then 3
         else if max 0 ((now - e) / 86400) ≤ 3 then 2
         else if max 0 ((now - e) / 86400) ≤ 7 then 3/2
         else 1 + expf (-(max 0 ((now - e) / 86400) / hl))) *
        (if m.doc_type = some "backtest_result" then 13/10 else 1)) := by
  constructor
  · intro parseIso expf now hl m hfalse
    unfold temporal_boost_of
    rw [if_neg (by simp [hfalse])]
  · intro parseIso expf now hl m v e hv htruthy hepoch
    unfold temporal_boost_of
    rw [hv]
    rw [if_pos (by simp [jTruthyOpt, htruthy])]
    show (match tsEpoch parseIso v with
      | some epoch =>
        let age_days := max 0 ((now - epoch) / 86400)
        let boost :=
          if age_days ≤ 1 then 3
          else if age_days ≤ 3 then 2
          else if age_days ≤ 7 then 3/2
          else 1 + expf (-(age_days / hl))
        if m.doc_type = some "backtest_result" then boost * (13/10) else boost
      | none => 11/10) = _
    rw [hepoch]
    show (let age_days := max 0 ((now - e) / 86400)
      let boost :=
        if age_days ≤ 1 then 3
        else if age_days ≤ 3 then 2
        else if age_days ≤ 7 then 3/2
        else 1 + expf (-(age_days / hl))
      if m.doc_type = some "backtest_result" then boost * (13/10) else boost) = _
    by_cases hbt : m.doc_type = some "backtest_result"
    · simp only [hbt, if_pos, if_true]
    · simp only [hbt, if_neg, if_false, ite_false, mul_one]

/-- C7 (witness): a document updated exactly at `now` (age 0) with no
`backtest_result` tag gets boost `3 * 1`, and an untagged document with no
timestamp gets boost 1. -/
theorem c7_witness :
    temporal_boost_of (fun _ => none) (fun _ => 0) 5 3
      { updatedAt := some (JVal.jnum 5) } =
      (if max 0 (((5:ℚ) - 5) / 86400) ≤ 1 then 3
       else if max 0 (((5:ℚ) - 5) / 86400) ≤ 3 then 2
       else if max 0 (((5:ℚ) - 5) / 86400) ≤ 7 then 3/2
       else 1 + (fun _ : ℚ => (0:ℚ)) (-(max 0 (((5:ℚ) - 5) / 86400) / 3))) *
      (if ({ updatedAt := some (JVal.jnum 5) } : DocMeta).doc_type
          = some "backtest_result" then 13/10 else 1) ∧
    temporal_boost_of (fun _ => none) (fun _ => 0) 5 3 {} = 1 :=
  ⟨c7_theorem.2 (fun _ => none) (fun _ => 0) 5 3
      { updatedAt := some (JVal.jnum 5) } (JVal.jnum 5) 5 rfl (by decide) rfl,
   c7_theorem.1 (fun _ => none) (fun _ => 0) 5 3 {} (by decide)⟩

/-! ### C1: context compressor budget -/

/-- C1 (counterexample): the string returned by `compress_context` can be
longer than `max_chars`.  With budget 6 and a single 6-character document,
the content alone fills the budget (`current_size = 6 ≤ 6`), but the
returned string also carries the `"[Doc 1] (Score: ...)"` header and
newlines, so its length exceeds 6.  Since the Run Record stores
`context_chars = len(compressed_context)`, the recorded value can exceed
the configured maximum as well. -/
theorem c1_counterexample :
    6 < (compress_context (fun _ => "0.00") [{ content := "aaaaaa" }] 6).length ∧
    compress_size (fun _ => "0.00") [{ content := "aaaaaa" }] 6 = 6 := by
  constructor
  · decide
  · decide

/-- The `current_size` counter of the compression loop never exceeds the
budget. -/
theorem compressGo_size_le (fmt : ℚ → String) (max_chars : Nat)
    (docs : List Doc) : ∀ (i size : Nat), size ≤ max_chars →
    (compressGo fmt max_chars i size docs).2 ≤ max_chars := by
  induction docs with
  | nil => intro i size h; simpa [compressGo] using h
  | cons d rest ih =>
    intro i size h
    show (if i < 10 ∨ d.final_score.getD 0 > 8/10 then
        if size + d.content.length ≤ max_chars then
          ((docHeader fmt i d ++ d.content ++ "\n") ::
            (compressGo fmt max_chars (i+1) (size + d.content.length) rest).1,
           (compressGo fmt max_chars (i+1) (size + d.content.length) rest).2)
        else if ((max_chars : ℤ) - (size : ℤ)) > 500 then
          ([docHeader fmt i d ++ pyTake d.content ((max_chars : ℤ) - (size : ℤ)).toNat
              ++ "... [truncated]\n"],
           size + ((max_chars : ℤ) - (size : ℤ)).toNat)
        else ([], size)
      else if size + (if d.content.length > 1500 then pyTake d.content 1500
          else d.content).length ≤ max_chars then
        (("[Doc " ++ toString (i+1) ++ "] (Summary)\n" ++
            (if d.content.length > 1500 then pyTake d.content 1500 else d.content)
            ++ "...\n") ::
          (compressGo fmt max_chars (i+1) (size + (if d.content.length > 1500
            then pyTake d.content 1500 else d.content).length) rest).1,
         (compressGo fmt max_chars (i+1) (size + (if d.content.length > 1500
            then pyTake d.content 1500 else d.content).length) rest).2)
      else ([], size)).2 ≤ max_chars
    split_ifs <;> first
      | exact ih (i+1) _ (by assumption)
      | (show size + ((max_chars : ℤ) - (size : ℤ)).toNat ≤ max_chars; omega)
      | exact h

/-- C1 (amended): the compressor's character accounting (the sum of included
document-content lengths, which is what the loop checks against the budget
and reports) never exceeds `max_chars`; the returned string may exceed the
budget only by the per-document header/suffix/join overhead, as the
counterexample shows. -/
theorem c1_amended (fmt : ℚ → String) (docs : List Doc) (max_chars : Nat) :
    compress_size fmt docs max_chars ≤ max_chars :=
  compressGo_size_le fmt max_chars docs 0 0 (Nat.zero_le _)

/-! ### C3: the confidence formula -/

/-- A concrete environment with empty cache, empty retrieval and opaque
models, used by pipeline counterexamples and witnesses. -/
def sampleEnv : QueryEnv :=
  { concepts := [], expansions := [], sha256 := id, cacheGet := fun _ => none,
    retrieved_docs := [], ce := fun _ _ => 0, llm := fun _ _ => "resposta",
    fmt := fun _ => "0.00", elapsed := 1 }

/-- The source-default configuration (`project='scalp'`,
`RAG_CONTEXT_CHARS=120000`, `RAG_TOP_K=40`, cache enabled). -/
def sampleCfg : RagConfig :=
  { project_name := "scalp", context_max_chars := 120000, default_top_k := 40,
    cache_enabled := true }

/-- C3 (counterexample): on the `mode='none'` run for
`"explique o que é um cache"` the pipeline returns confidence 50 with 0
re-ranked documents, and `50 ≠ min(100, 2.0 * 0)`: the confidence of a
pipeline run is not always `min(100, 2.0 * reranked)`. -/
theorem c3_counterexample :
    (query sampleCfg sampleEnv "explique o que é um cache").2.2.confidence = 50 ∧
    (query sampleCfg sampleEnv "explique o que é um cache").2.2.reranked = 0 ∧
    (query sampleCfg sampleEnv "explique o que é um cache").2.2.confidence ≠
      min 100 (2 *
        ((query sampleCfg sampleEnv "explique o que é um cache").2.2.reranked : ℚ)) := by
  have hc : (query sampleCfg sampleEnv "explique o que é um cache").2.2.confidence
      = 50 := by
    set_option maxRecDepth 3000 in decide
  have hr : (query sampleCfg sampleEnv "explique o que é um cache").2.2.reranked
      = 0 := by
    set_option maxRecDepth 3000 in decide
  refine ⟨hc, hr, ?_⟩
  rw [hc, hr]
  norm_num

/-- C3 (amended): on every run that is not a cache hit and not a
`mode='none'` run, the confidence returned by `query` (which is also the
Run Record's confidence) equals `min(100, 2.0 * reranked_count)` — with the
empty-retrieval sentinel run included, since it returns confidence 0 with
0 re-ranked documents — and therefore lies in [0, 100] and is a pure
function of the final ranked list size. -/
theorem c3_amended (cfg : RagConfig) (env : QueryEnv) (q : String)
    (hmiss : cache_probe cfg env q = none)
    (hmode : (query_strategy cfg env q).mode ≠ "none") :
    (query cfg env q).2.1 = (query cfg env q).2.2.confidence ∧
    (query cfg env q).2.1 =
      min 100 (2 * ((query cfg env q).2.2.reranked : ℚ)) ∧
    0 ≤ (query cfg env q).2.1 ∧ (query cfg env q).2.1 ≤ 100 := by
  have hq : query cfg env q =
      (if env.retrieved_docs.isEmpty then no_docs_result cfg env q
       else main_result cfg env q) := by
    unfold query
    rw [hmiss]
    show (if (query_strategy cfg env q).mode = "none" then
        mode_none_result cfg env q
      else if env.retrieved_docs.isEmpty then no_docs_result cfg env q
      else main_result cfg env q) = _
    rw [if_neg hmode]
  rw [hq]
  split
  · refine ⟨rfl, by norm_num [no_docs_result], by norm_num [no_docs_result],
      by norm_num [no_docs_result]⟩
  · refine ⟨rfl, ?_, ?_, ?_⟩
    · show min 100 (((query_reranked cfg env q).length : ℚ) * 2) =
        min 100 (2 * ((query_reranked cfg env q).length : ℚ))
      rw [mul_comm]
    · exact le_min (by norm_num) (by positivity)
    · exact min_le_left _ _

/-- C3 (witness): the amended formula at a concrete cache-missing hybrid
run (a status query with empty retrieval). -/
theorem c3_amended_witness :
    (query sampleCfg sampleEnv "qual o status do projeto").2.1 =
      min 100 (2 * ((query sampleCfg sampleEnv "qual o status do projeto").2.2.reranked : ℚ)) :=
  (c3_amended sampleCfg sampleEnv "qual o status do projeto" rfl (by decide)).2.1

/-! ### C2: cache TTL semantics -/

/-- `find?` returns the unique satisfying element. -/
theorem find?_eq_of_mem_unique {α : Type} (p : α → Bool) (l : List α) (x : α)
    (hx : x ∈ l) (hp : p x = true)
    (huniq : ∀ y ∈ l, p y = true → y = x) : l.find? p = some x := by
  induction l with
  | nil => simp at hx
  | cons a rest ih =>
    by_cases ha : p a = true
    · rw [List.find?_cons_of_pos _ ha]
      rw [huniq a (List.mem_cons_self _ _) ha]
    · rw [List.find?_cons_of_neg _ ha]
      rcases List.mem_cons.1 hx with rfl | hx2
      · exact absurd hp ha
      · exact ih hx2 (fun y hy => huniq y (List.mem_cons_of_mem _ hy))

/-- An entry strictly newer than every other entry survives `_prune`
whenever at least one file is kept. -/
theorem newest_mem_prune {α : Type} (l : List (CacheEntry α))
    (x : CacheEntry α) (hx : x ∈ l)
    (hnew : ∀ y ∈ l, y ≠ x → y.mtime < x.mtime)
    (m : Nat) (hm : 1 ≤ m) : x ∈ QueryCache.prune m l := by
  unfold QueryCache.prune
  have hperm := List.perm_insertionSort QueryCache.newerEq l
  have hxs : x ∈ l.insertionSort QueryCache.newerEq := by
    rw [List.mem_insertionSort]
    exact hx
  cases hs : l.insertionSort QueryCache.newerEq with
  | nil => rw [hs] at hxs; simp at hxs
  | cons hd tl =>
    have hsorted := List.sorted_insertionSort QueryCache.newerEq l
    rw [hs] at hsorted hxs
    have hd_mem : hd ∈ l := by
      have : hd ∈ l.insertionSort QueryCache.newerEq := by
        rw [hs]; exact List.mem_cons_self _ _
      rwa [List.mem_insertionSort] at this
    have hhd : hd = x := by
      by_contra hne
      have hlt : hd.mtime < x.mtime := hnew hd hd_mem hne
      rcases List.mem_cons.1 hxs with rfl | hx_tl
      · exact absurd rfl hne
      · have : QueryCache.newerEq hd x := List.rel_of_sorted_cons hsorted x hx_tl
        exact absurd this (not_le_of_lt hlt)
    subst hhd
    cases m with
    | zero => omega
    | succ m2 => rw [List.take_succ_cons]; exact List.mem_cons_self _ _

/-- After `set`, the key's file holds exactly the record just written
(given a positive capacity and a fresh write time). -/
theorem set_find {α : Type} (s : CacheState α) (now : ℚ) (k : String)
    (p : α) (t : ℤ) (hmax : 1 ≤ s.max_entries)
    (hfresh : ∀ e ∈ s.entries, e.mtime < now) :
    (QueryCache.set s now k p (some t)).entries.find? (fun e => e.key = k) =
      some { key := k, mtime := now, ts := now, ttl := t, payload := p } := by
  set e0 : CacheEntry α :=
    { key := k, mtime := now, ts := now, ttl := t, payload := p } with he0
  have hset : (QueryCache.set s now k p (some t)).entries =
      QueryCache.prune s.max_entries
        ((s.entries.filter (fun e => e.key ≠ k)) ++ [e0]) := by
    unfold QueryCache.set
    rw [if_neg (by omega)]
    rfl
  rw [hset]
  set l := (s.entries.filter (fun e => e.key ≠ k)) ++ [e0] with hl
  have hkeys : ∀ y ∈ l, y.key = k → y = e0 := by
    intro y hy hk
    rcases List.mem_append.1 hy with hy1 | hy2
    · have := List.of_mem_filter hy1
      simp only [decide_eq_true_eq] at this
      exact absurd hk this
    · simpa using hy2
  have he0l : e0 ∈ l := List.mem_append_right _ (List.mem_cons_self _ _)
  have hnew : ∀ y ∈ l, y ≠ e0 → y.mtime < e0.mtime := by
    intro y hy hne
    rcases List.mem_append.1 hy with hy1 | hy2
    · exact hfresh y (List.mem_of_mem_filter hy1)
    · exact absurd (by simpa using hy2) hne
  have hmem : e0 ∈ QueryCache.prune s.max_entries l :=
    newest_mem_prune l e0 he0l hnew s.max_entries hmax
  have hsub : ∀ y ∈ QueryCache.prune s.max_entries l, y ∈ l := by
    intro y hy
    unfold QueryCache.prune at hy
    have := (List.take_sublist _ _).subset hy
    exact (List.perm_insertionSort QueryCache.newerEq l).subset this
  exact find?_eq_of_mem_unique _ _ e0 hmem (by simp)
    (fun y hy hp => hkeys y (hsub y hy) (by simpa using hp))

/-- Unfolding `get` when the key's file is present. -/
theorem get_eq_of_find {α : Type} (s : CacheState α) (now : ℚ) (k : String)
    (e : CacheEntry α)
    (hfind : s.entries.find? (fun x => x.key = k) = some e) :
    QueryCache.get s now k =
      (if e.ttl ≠ 0 ∧ (now - e.ts) > (e.ttl : ℚ) then
        ((none : Option α), { s with entries := s.entries.filter (fun x => x.key ≠ k) })
      else (some e.payload, s)) := by
  unfold QueryCache.get
  rw [hfind]

/-- C2 (amended): for a cache with positive capacity, a write at a time
later than every existing file's mtime, and a positive TTL `t`:  `get`
within `t` seconds of the `set` returns exactly the stored payload, and
`get` after more than `t` seconds misses and removes the entry.  (The
restrictions are necessary: `set` is a no-op when `max_entries` is 0, and
a TTL of 0 is falsy in the source's expiry check, so such an entry never
expires — see the counterexample.) -/
theorem c2_amended {α : Type} (s : CacheState α) (now_set now_get : ℚ)
    (k : String) (p : α) (t : ℤ)
    (hmax : 1 ≤ s.max_entries)
    (hfresh : ∀ e ∈ s.entries, e.mtime < now_set)
    (ht : 0 < t) :
    (now_get - now_set ≤ (t : ℚ) →
      (QueryCache.get (QueryCache.set s now_set k p (some t)) now_get k).1 =
        some p) ∧
    ((t : ℚ) < now_get - now_set →
      (QueryCache.get (QueryCache.set s now_set k p (some t)) now_get k).1 =
        none ∧
      ((QueryCache.get (QueryCache.set s now_set k p (some t)) now_get k).2.entries.find?
        (fun e => e.key = k)) = none) := by
  have hfind := set_find s now_set k p t hmax hfresh
  have hget := get_eq_of_find (QueryCache.set s now_set k p (some t)) now_get k
    _ hfind
  constructor
  · intro hwithin
    rw [hget]
    rw [if_neg (by
      intro hcond
      exact absurd hcond.2 (not_lt_of_le hwithin))]
  · intro hlate
    rw [hget]
    rw [if_pos ⟨show t ≠ 0 by omega, hlate⟩]
    refine ⟨rfl, ?_⟩
    simp only
    rw [List.find?_eq_none]
    intro x hxmem
    have := List.of_mem_filter hxmem
    simpa using this

/-- C2 (witness): a 600-second entry written at time 0 into an empty cache
of capacity 256 is served at time 500 and is a removed miss at time 601. -/
theorem c2_amended_witness :
    (QueryCache.get (QueryCache.set
        ({ entries := [], default_ttl := 900, max_entries := 256 } : CacheState String)
        0 "k" "payload" (some 600)) 500 "k").1 = some "payload" ∧
    (QueryCache.get (QueryCache.set
        ({ entries := [], default_ttl := 900, max_entries := 256 } : CacheState String)
        0 "k" "payload" (some 600)) 601 "k").1 = none :=
  ⟨(c2_amended ({ entries := [], default_ttl := 900, max_entries := 256 } :
      CacheState String) 0 500 "k" "payload" 600 (by norm_num) (by simp)
      (by norm_num)).1 (by norm_num),
   ((c2_amended ({ entries := [], default_ttl := 900, max_entries := 256 } :
      CacheState String) 0 601 "k" "payload" 600 (by norm_num) (by simp)
      (by norm_num)).2 (by norm_num)).1⟩

/-- C2 (counterexample): the claim fails at `ttl = 0`.  The source's expiry
check `if ttl and (time.time() - ts) > ttl` treats a zero TTL as falsy, so
an entry stored with `ttl = 0` is still served 5 seconds later instead of
being a miss. -/
theorem c2_counterexample :
    (QueryCache.get (QueryCache.set
        ({ entries := [], default_ttl := 900, max_entries := 256 } : CacheState String)
        0 "k" "payload" (some 0)) 5 "k").1 = some "payload" := by
  have hfind := set_find
    ({ entries := [], default_ttl := 900, max_entries := 256 } : CacheState String)
    0 "k" "payload" 0 (by norm_num) (by simp)
  have hget := get_eq_of_find (QueryCache.set
    ({ entries := [], default_ttl := 900, max_entries := 256 } : CacheState String)
    0 "k" "payload" (some 0)) 5 "k" _ hfind
  rw [hget]
  rw [if_neg (by intro hcond; exact hcond.1 rfl)]

end RagV2
